import Mathlib

/-!
Verification of the Roland Assistance SAV case-tracking tool
(`scripts/roland_sav.py`) against its specification.

The Python program is embedded shallowly:

* `ServiceCase` mirrors the `@dataclass ServiceCase` (ten fields).
* Wall-clock time is made explicit: every operation that reads
  `datetime.utcnow().isoformat()` takes the current timestamp as a `String`
  argument.  The dataclass field defaults
  `created_at = datetime.utcnow().isoformat()` are evaluated *once*, when the
  class statement itself runs (module-load time); that frozen value is the
  explicit `defTime` argument of `ServiceCase.construct`.
* The JSON backing file is modelled as `Option (List CaseDict)`:
  `none` means the file does not exist, `some ds` means the file holds the
  JSON array serializing `ds`.  `json.dump` is deterministic on this data,
  so equality of the modelled content coincides with byte equality of the
  file.  `CaseDict` is a record with exactly the ten keys `asdict` emits.
* The CLI handlers (`handle_init`, `handle_add`, `handle_update`) become
  state-passing functions from the backing store to the new backing store
  paired with the message they print.
-/

/-- One SAV case, mirroring the `ServiceCase` dataclass field for field. -/
structure ServiceCase where
  case_id : Int
  customer_name : String
  contact_email : String
  product_model : String
  serial_number : String
  issue_description : String
  status : String
  created_at : String
  updated_at : String
  resolution_notes : String
deriving Repr, DecidableEq

/-- The plain key-value mapping produced by `dataclasses.asdict`: exactly the
ten keys of `ServiceCase`, in declaration order. -/
structure CaseDict where
  case_id : Int
  customer_name : String
  contact_email : String
  product_model : String
  serial_number : String
  issue_description : String
  status : String
  created_at : String
  updated_at : String
  resolution_notes : String
deriving Repr, DecidableEq

/-- `dataclasses.asdict(case)`. -/
def asdict (c : ServiceCase) : CaseDict :=
  { case_id := c.case_id
    customer_name := c.customer_name
    contact_email := c.contact_email
    product_model := c.product_model
    serial_number := c.serial_number
    issue_description := c.issue_description
    status := c.status
    created_at := c.created_at
    updated_at := c.updated_at
    resolution_notes := c.resolution_notes }

/-- `ServiceCase.from_dict(data) = cls(**data)`: a record with all ten keys
present sets every field from the mapping. -/
def ServiceCase.from_dict (d : CaseDict) : ServiceCase :=
  { case_id := d.case_id
    customer_name := d.customer_name
    contact_email := d.contact_email
    product_model := d.product_model
    serial_number := d.serial_number
    issue_description := d.issue_description
    status := d.status
    created_at := d.created_at
    updated_at := d.updated_at
    resolution_notes := d.resolution_notes }

/-- Calling `ServiceCase(case_id=…, customer_name=…, …)` with only the six
required arguments, as `handle_add` does, at wall-clock time `now`, in a
process whose module was loaded at time `defTime`.

The Python defaults `created_at = datetime.utcnow().isoformat()` and
`updated_at = datetime.utcnow().isoformat()` are evaluated when the
`class` statement runs, not at each construction, so both timestamp fields
receive the frozen module-load value `defTime`; the construction-time clock
`now` is never consulted.  `status` defaults to `"open"` and
`resolution_notes` to `""`. -/
def ServiceCase.construct (defTime now : String) (cid : Int)
    (cn ce pm sn isd : String) : ServiceCase :=
  { case_id := cid
    customer_name := cn
    contact_email := ce
    product_model := pm
    serial_number := sn
    issue_description := isd
    status := "open"
    created_at := defTime
    updated_at := defTime
    resolution_notes := "" }

/-- `ServiceCase.update_status(new_status, notes=None)`: sets `status`,
overwrites `resolution_notes` only when `notes` is provided, and refreshes
`updated_at` from the clock (`datetime.utcnow().isoformat()` evaluated inside
the method body, hence the genuine current time `now`). -/
def ServiceCase.update_status (c : ServiceCase) (new_status : String)
    (notes : Option String) (now : String) : ServiceCase :=
  { c with
    status := new_status
    resolution_notes := match notes with
      | some n => n
      | none => c.resolution_notes
    updated_at := now }

/-- The backing JSON file of one repository: `none` when the file does not
exist, `some ds` when it holds the array serializing `ds`. -/
abbrev Store := Option (List CaseDict)

/-- `CaseRepository.load`: a missing file yields `[]`; otherwise each record
of the array is decoded with `ServiceCase.from_dict`, preserving order. -/
def CaseRepository.load (fs : Store) : List ServiceCase :=
  match fs with
  | none => []
  | some raw => raw.map ServiceCase.from_dict

/-- `CaseRepository.save(cases)`: the file content written by
`json.dump([asdict(case) for case in cases], fp)` — the whole collection,
in order, replacing any previous content. -/
def CaseRepository.save (cases : List ServiceCase) : List CaseDict :=
  cases.map asdict

/-- `_create_case_id(cases)`: `1` for an empty collection, otherwise
`max(case.case_id for case in cases) + 1` (Python `max` folds the binary
maximum over the nonempty sequence). -/
def _create_case_id : List ServiceCase → Int
  | [] => 1
  | c :: cs => (cs.map ServiceCase.case_id).foldl max c.case_id + 1

/-- `handle_init(repo)`: if the file exists, print a notice and leave it
alone; otherwise write an empty collection.  `path` is the textual
`repo.file_path` interpolated into the messages. -/
def handle_init (path : String) (fs : Store) : Store × String :=
  match fs with
  | some d => (some d, "Datenbestand existiert bereits unter " ++ path ++ ".")
  | none => (some (CaseRepository.save []),
      "Neue SAV-Datenbank erstellt: " ++ path)

/-- The five positional arguments of the `add` subcommand. -/
structure AddArgs where
  customer_name : String
  contact_email : String
  product_model : String
  serial_number : String
  issue_description : String
deriving Repr, DecidableEq

/-- `handle_add(args, repo)`: load, construct a case with the next id and
the defaults, append, save, report the new id. -/
def handle_add (defTime now : String) (a : AddArgs) (fs : Store) :
    Store × String :=
  let cases := CaseRepository.load fs
  let new_case := ServiceCase.construct defTime now (_create_case_id cases)
    a.customer_name a.contact_email a.product_model a.serial_number
    a.issue_description
  (some (CaseRepository.save (cases ++ [new_case])),
    "Fall #" ++ toString new_case.case_id ++ " erfolgreich angelegt.")

/-- The `for case in cases: if case.case_id == args.case_id: …` loop body of
`handle_update`: walk the list in order; at the first case whose id matches,
apply `update_status` and stop.  Returns the updated list together with the
updated case (whose id and status the handler prints), or `none` when no
case matches. -/
def updateFirst (cid : Int) (s : String) (notes : Option String)
    (now : String) : List ServiceCase → Option (List ServiceCase × ServiceCase)
  | [] => none
  | c :: cs =>
    if c.case_id = cid then
      some (c.update_status s notes now :: cs, c.update_status s notes now)
    else
      match updateFirst cid s notes now cs with
      | none => none
      | some (cs2, c2) => some (c :: cs2, c2)

/-- `handle_update(args, repo)`: load, mutate the first case with the
requested id and save the whole collection once; when no case matches,
print the not-found message and perform no save (the file is untouched). -/
def handle_update (cid : Int) (s : String) (notes : Option String)
    (now : String) (fs : Store) : Store × String :=
  match updateFirst cid s notes now (CaseRepository.load fs) with
  | some (cs2, c2) =>
      (some (CaseRepository.save cs2),
        "Fall #" ++ toString c2.case_id ++ " aktualisiert (Status: "
          ++ c2.status ++ ").")
  | none => (fs, "Kein Fall mit der ID " ++ toString cid ++ " gefunden.")

/-- `N` sequential `add` invocations: each element of `calls` is the
argument tuple and the wall-clock time of one invocation, applied in order
to the evolving backing store. -/
def runAdds (defTime : String) (calls : List (AddArgs × String))
    (fs : Store) : Store :=
  calls.foldl (fun s p => (handle_add defTime p.2 p.1 s).1) fs

/-- The id list `[1, 2, …, n]` that the spec promises for `n` sequential
adds against a fresh store. -/
def idsUpTo : Nat → List Int
  | 0 => []
  | k + 1 => idsUpTo k ++ [(k : Int) + 1]

/-- Backing stores reachable from a fresh (absent or freshly initialized)
file by the program's own operations: `init`, `add`, `update`. -/
inductive ReachableStore : Store → Prop
  | empty : ReachableStore none
  | init (p : String) (fs : Store) : ReachableStore fs →
      ReachableStore (handle_init p fs).1
  | add (defTime now : String) (a : AddArgs) (fs : Store) :
      ReachableStore fs → ReachableStore (handle_add defTime now a fs).1
  | update (cid : Int) (s : String) (notes : Option String) (now : String)
      (fs : Store) : ReachableStore fs →
      ReachableStore (handle_update cid s notes now fs).1

/-! ## Helper lemmas -/

/-- Decoding undoes encoding on a single case. -/
theorem from_dict_asdict_eq (c : ServiceCase) :
    ServiceCase.from_dict (asdict c) = c := rfl

/-- Loading a store that was just saved recovers the saved collection. -/
theorem load_save_eq (X : List ServiceCase) :
    CaseRepository.load (some (CaseRepository.save X)) = X := by
  have hfun : ServiceCase.from_dict ∘ asdict = id := funext from_dict_asdict_eq
  simp only [CaseRepository.load, CaseRepository.save, List.map_map, hfun,
    List.map_id]

/-- The seed of a `max`-fold is a lower bound of the result. -/
theorem foldl_max_init_le (l : List Int) (a : Int) : a ≤ l.foldl max a := by
  induction l generalizing a with
  | nil => exact le_refl a
  | cons x xs ih => exact le_trans (le_max_left a x) (ih (max a x))

/-- Every list element is a lower bound of a `max`-fold over the list. -/
theorem le_foldl_max_of_mem {l : List Int} {x : Int} (a : Int) (h : x ∈ l) :
    x ≤ l.foldl max a := by
  induction l generalizing a with
  | nil => cases h
  | cons y ys ih =>
    rcases List.mem_cons.mp h with rfl | hmem
    · exact le_trans (le_max_right a x) (foldl_max_init_le ys (max a x))
    · exact ih (max a y) hmem

/-- A `max`-fold returns either its seed or a list element. -/
theorem foldl_max_mem (l : List Int) (a : Int) : l.foldl max a ∈ a :: l := by
  induction l generalizing a with
  | nil => exact List.mem_singleton.mpr rfl
  | cons x xs ih =>
    have h := ih (max a x)
    rcases List.mem_cons.mp h with heq | hmem
    · rcases max_choice a x with hax | hax
      · exact List.mem_cons.mpr (Or.inl (heq.trans hax))
      · exact List.mem_cons.mpr (Or.inr (List.mem_cons.mpr
          (Or.inl (heq.trans hax))))
    · exact List.mem_cons.mpr (Or.inr (List.mem_cons.mpr (Or.inr hmem)))

/-- Duplicating the seed at the head of the list leaves a `max`-fold
unchanged. -/
theorem foldl_max_dup (l : List Int) (a : Int) :
    (a :: l).foldl max a = l.foldl max a := by
  simp [List.foldl_cons, max_self]

/-- The length of `idsUpTo`. -/
theorem idsUpTo_length (k : Nat) : (idsUpTo k).length = k := by
  induction k with
  | zero => rfl
  | succ k ih => simp [idsUpTo, ih]

/-- Every element of `idsUpTo m` is at most `m`. -/
theorem mem_idsUpTo_le {x : Int} {m : Nat} (h : x ∈ idsUpTo m) : x ≤ (m : Int) := by
  induction m with
  | zero => cases h
  | succ m ih =>
    rcases List.mem_append.mp h with hmem | hmem
    · have := ih hmem
      push_cast
      omega
    · rcases List.mem_singleton.mp hmem with rfl
      push_cast
      omega

/-- A `max`-fold over the nonempty ascending list `[1, …, k+1]`. -/
theorem foldl_max_idsUpTo (k : Nat) (a : Int) :
    (idsUpTo (k + 1)).foldl max a = max a ((k : Int) + 1) := by
  induction k generalizing a with
  | zero => simp [idsUpTo]
  | succ k ih =>
    show ((idsUpTo (k + 1)) ++ [((k + 1 : Nat) : Int) + 1]).foldl max a = _
    rw [List.foldl_append, ih]
    simp only [List.foldl_cons, List.foldl_nil]
    rw [max_assoc]
    congr 1
    push_cast
    rw [max_eq_right (by omega)]

/-- If the current ids are exactly `[1, …, k]`, the next assigned id is
`k + 1`. -/
theorem create_case_id_of_idsUpTo (cases : List ServiceCase) (k : Nat)
    (h : cases.map ServiceCase.case_id = idsUpTo k) :
    _create_case_id cases = (k : Int) + 1 := by
  cases cases with
  | nil =>
    have hk : k = 0 := by
      have := congrArg List.length h
      simp [idsUpTo_length] at this
      omega
    subst hk
    rfl
  | cons c cs =>
    have hk : k = cs.length + 1 := by
      have := congrArg List.length h
      simp [idsUpTo_length] at this
      omega
    subst hk
    show (cs.map ServiceCase.case_id).foldl max c.case_id + 1 = _
    have hdup := foldl_max_dup (cs.map ServiceCase.case_id) c.case_id
    have hlist : c.case_id :: cs.map ServiceCase.case_id
        = idsUpTo (cs.length + 1) := by simpa using h
    rw [← hdup, hlist, foldl_max_idsUpTo]
    have hmem : c.case_id ∈ idsUpTo (cs.length + 1) := by
      rw [← hlist]; exact List.mem_cons_self _ _
    have hle : c.case_id ≤ ((cs.length + 1 : Nat) : Int) := mem_idsUpTo_le hmem
    rw [max_eq_right (by push_cast at hle ⊢; omega)]
    push_cast
    ring

/-- A freshly assigned id strictly exceeds every id already in the
collection. -/
theorem case_id_lt_create {cases : List ServiceCase} {c : ServiceCase}
    (h : c ∈ cases) : c.case_id < _create_case_id cases := by
  cases cases with
  | nil => cases h
  | cons c0 cs =>
    have hle : c.case_id ≤ (cs.map ServiceCase.case_id).foldl max c0.case_id := by
      rcases List.mem_cons.mp h with rfl | hmem
      · exact foldl_max_init_le _ _
      · exact le_foldl_max_of_mem _ (List.mem_map_of_mem _ hmem)
    show c.case_id < (cs.map ServiceCase.case_id).foldl max c0.case_id + 1
    omega

/-- A successful `updateFirst` leaves the id sequence of the collection
unchanged. -/
theorem updateFirst_map_case_id (cid : Int) (s : String) (notes : Option String)
    (now : String) (cs : List ServiceCase) (out : List ServiceCase × ServiceCase)
    (h : updateFirst cid s notes now cs = some out) :
    out.1.map ServiceCase.case_id = cs.map ServiceCase.case_id := by
  induction cs generalizing out with
  | nil => simp [updateFirst] at h
  | cons c rest ih =>
    rw [updateFirst] at h
    by_cases hc : c.case_id = cid
    · rw [if_pos hc] at h
      injection h with h
      subst h
      simp [ServiceCase.update_status]
    · rw [if_neg hc] at h
      rcases hrec : updateFirst cid s notes now rest with _ | out2
      · rw [hrec] at h
        cases h
      · rw [hrec] at h
        injection h with h
        subst h
        simp [ih out2 hrec]

/-- When no case carries the requested id, `updateFirst` finds nothing. -/
theorem updateFirst_not_found (cid : Int) (s : String) (notes : Option String)
    (now : String) (cs : List ServiceCase)
    (h : cid ∉ cs.map ServiceCase.case_id) :
    updateFirst cid s notes now cs = none := by
  induction cs with
  | nil => rfl
  | cons c rest ih =>
    simp only [List.map_cons, List.mem_cons, not_or] at h
    obtain ⟨h1, h2⟩ := h
    rw [updateFirst, if_neg (fun he => h1 he.symm), ih h2]

/-- `updateFirst` updates exactly the first case bearing the requested id
and leaves every earlier and later case untouched. -/
theorem updateFirst_split (cid : Int) (s : String) (notes : Option String)
    (now : String) (pre : List ServiceCase) (c : ServiceCase)
    (post : List ServiceCase) (hpre : ∀ p ∈ pre, p.case_id ≠ cid)
    (hc : c.case_id = cid) :
    updateFirst cid s notes now (pre ++ c :: post)
      = some (pre ++ c.update_status s notes now :: post,
          c.update_status s notes now) := by
  induction pre with
  | nil => simp [updateFirst, hc]
  | cons p ps ih =>
    have hp : p.case_id ≠ cid := hpre p (List.mem_cons_self _ _)
    rw [List.cons_append, updateFirst, if_neg hp,
      ih (fun q hq => hpre q (List.mem_cons.mpr (Or.inr hq)))]
    rfl

/-- `handle_update` either leaves the store untouched or replaces it with a
single save of a successfully updated collection. -/
theorem handle_update_fst_cases (cid : Int) (s : String) (notes : Option String)
    (now : String) (fs : Store) :
    (handle_update cid s notes now fs).1 = fs ∨
    ∃ out, updateFirst cid s notes now (CaseRepository.load fs) = some out ∧
      (handle_update cid s notes now fs).1 = some (CaseRepository.save out.1) := by
  rcases hu : updateFirst cid s notes now (CaseRepository.load fs) with _ | out
  · left
    simp [handle_update, hu]
  · right
    obtain ⟨cs2, c2⟩ := out
    refine ⟨(cs2, c2), rfl, ?_⟩
    simp [handle_update, hu]

/-- Loading the store produced by `handle_add` appends exactly the freshly
constructed case to the previous collection. -/
theorem load_handle_add (defTime now : String) (a : AddArgs) (fs : Store) :
    CaseRepository.load (handle_add defTime now a fs).1
      = CaseRepository.load fs
        ++ [ServiceCase.construct defTime now
              (_create_case_id (CaseRepository.load fs)) a.customer_name
              a.contact_email a.product_model a.serial_number
              a.issue_description] := by
  simp [handle_add, load_save_eq]

/-- The id sequence of every reachable store is strictly increasing. -/
theorem reachable_pairwise_lt (fs : Store) (h : ReachableStore fs) :
    ((CaseRepository.load fs).map ServiceCase.case_id).Pairwise
      (fun a b => a < b) := by
  induction h with
  | empty => simp [CaseRepository.load]
  | init p fs hr ih =>
    cases fs with
    | none =>
      have : CaseRepository.load (handle_init p none).1 = [] := by
        simp [handle_init, load_save_eq]
      simp [this]
    | some d => simpa [handle_init] using ih
  | add defTime now a fs hr ih =>
    rw [load_handle_add, List.map_append, List.pairwise_append]
    refine ⟨ih, by simp, ?_⟩
    intro x hx y hy
    rcases List.mem_map.mp hx with ⟨c, hcmem, rfl⟩
    simp only [List.map_cons, List.map_nil, List.mem_singleton] at hy
    subst hy
    exact case_id_lt_create hcmem
  | update cid s notes now fs hr ih =>
    rcases handle_update_fst_cases cid s notes now fs with heq | ⟨out, hu, heq⟩
    · rw [heq]
      exact ih
    · rw [heq, load_save_eq, updateFirst_map_case_id cid s notes now _ out hu]
      exact ih

/-- One `add` step of `runAdds`. -/
theorem runAdds_cons (defTime : String) (p : AddArgs × String)
    (rest : List (AddArgs × String)) (fs : Store) :
    runAdds defTime (p :: rest) fs
      = runAdds defTime rest (handle_add defTime p.2 p.1 fs).1 := rfl

/-- Sequential adds extend an id sequence `[1, …, k]` to
`[1, …, k + n]`. -/
theorem load_runAdds (defTime : String) (calls : List (AddArgs × String))
    (fs : Store) (k : Nat)
    (h : (CaseRepository.load fs).map ServiceCase.case_id = idsUpTo k) :
    (CaseRepository.load (runAdds defTime calls fs)).map ServiceCase.case_id
      = idsUpTo (k + calls.length) := by
  induction calls generalizing fs k with
  | nil => simpa [runAdds] using h
  | cons p rest ih =>
    rw [runAdds_cons]
    have hstep : (CaseRepository.load (handle_add defTime p.2 p.1 fs).1).map
        ServiceCase.case_id = idsUpTo (k + 1) := by
      rw [load_handle_add, List.map_append, h]
      have hnew : (ServiceCase.construct defTime p.2
          (_create_case_id (CaseRepository.load fs)) p.1.customer_name
          p.1.contact_email p.1.product_model p.1.serial_number
          p.1.issue_description).case_id
          = _create_case_id (CaseRepository.load fs) := rfl
      simp only [List.map_cons, List.map_nil, hnew,
        create_case_id_of_idsUpTo _ k h]
      rfl
    have := ih _ (k + 1) hstep
    rw [this]
    congr 1
    simp
    omega

/-! ## Concrete demonstration values used by the witnesses -/

/-- A concrete case with the given id (remaining fields fixed). -/
def demoCase (i : Int) : ServiceCase :=
  ServiceCase.construct "T0" "T0" i "Jane Doe" "jane@x.com" "TD-50" "SN123"
    "No sound from pads"

/-- Concrete `add` arguments. -/
def demoArgs : AddArgs :=
  { customer_name := "Jane Doe"
    contact_email := "jane@x.com"
    product_model := "TD-50"
    serial_number := "SN123"
    issue_description := "No sound from pads" }

/-- A second concrete case sharing id 2 with `demoCase 2` but differing in
the other fields, to exercise duplicate ids. -/
def demoDup : ServiceCase :=
  ServiceCase.construct "T0" "T0" 2 "Max Muster" "max@x.com" "TD-17" "SN999"
    "Pedal broken"

/-! ## Claims -/

/-- Claim C1: the next case id is 1 for an empty collection and the maximum
existing `case_id` plus 1 otherwise (stated as: next id − 1 is a member of
the id list and an upper bound of it); consequently N sequential adds
against a freshly initialized store assign ids 1, 2, …, N in order. -/
theorem C1_next_id_policy :
    _create_case_id [] = 1 ∧
    (∀ cases : List ServiceCase, cases ≠ [] →
      _create_case_id cases - 1 ∈ cases.map ServiceCase.case_id ∧
      ∀ i ∈ cases.map ServiceCase.case_id, i ≤ _create_case_id cases - 1) ∧
    (∀ (defTime path : String) (calls : List (AddArgs × String)),
      (CaseRepository.load (runAdds defTime calls
          (handle_init path none).1)).map ServiceCase.case_id
        = idsUpTo calls.length) := by
  refine ⟨rfl, ?_, ?_⟩
  · intro cases hne
    match cases with
    | [] => exact absurd rfl hne
    | c :: cs =>
      have harith : _create_case_id (c :: cs) - 1
          = (cs.map ServiceCase.case_id).foldl max c.case_id := by
        show (cs.map ServiceCase.case_id).foldl max c.case_id + 1 - 1 = _
        ring
      constructor
      · rw [harith]
        simpa using foldl_max_mem (cs.map ServiceCase.case_id) c.case_id
      · intro i hi
        rw [harith]
        simp only [List.map_cons, List.mem_cons] at hi
        rcases hi with heq | hmem
        · rw [heq]
          exact foldl_max_init_le _ _
        · exact le_foldl_max_of_mem _ hmem
  · intro defTime path calls
    have h0 : (CaseRepository.load (handle_init path none).1).map
        ServiceCase.case_id = idsUpTo 0 := by
      have hload : CaseRepository.load (handle_init path none).1 = [] := by
        simp [handle_init, load_save_eq]
      simp [hload, idsUpTo]
    simpa using load_runAdds defTime calls _ 0 h0

/-- Witness for C1 at concrete inputs: the collection with ids `{3, 1, 4}`
gets next id 5 (so next id − 1 = 4 is a member and ≥ the member 4), and two
sequential adds on a fresh store yield ids `[1, 2]`. -/
theorem C1_next_id_policy_witness :
    _create_case_id [demoCase 3, demoCase 1, demoCase 4] - 1
      ∈ [demoCase 3, demoCase 1, demoCase 4].map ServiceCase.case_id ∧
    (4 : Int) ≤ _create_case_id [demoCase 3, demoCase 1, demoCase 4] - 1 ∧
    (CaseRepository.load (runAdds "T0" [(demoArgs, "T1"), (demoArgs, "T2")]
        (handle_init "sav_cases.json" none).1)).map ServiceCase.case_id
      = idsUpTo 2 :=
  ⟨(C1_next_id_policy.2.1 [demoCase 3, demoCase 1, demoCase 4] (by simp)).1,
   (C1_next_id_policy.2.1 [demoCase 3, demoCase 1, demoCase 4] (by simp)).2
     4 (by decide),
   C1_next_id_policy.2.2 "T0" "sav_cases.json" [(demoArgs, "T1"), (demoArgs, "T2")]⟩

/-- Claim C2 fails on the code: the dataclass default timestamps are
evaluated once, when the class statement runs, not freshly at each
construction.  Two constructions at distinct wall-clock times `"T1"` and
`"T2"` (class defined at `"T0"`) both receive `created_at = updated_at =
"T0"` instead of their own construction-time clock values. -/
theorem C2_frozen_default_timestamp :
    (ServiceCase.construct "T0" "T1" 1 "Jane" "j@x.com" "TD-50" "SN1"
      "d1").created_at = "T0" ∧
    (ServiceCase.construct "T0" "T1" 1 "Jane" "j@x.com" "TD-50" "SN1"
      "d1").updated_at = "T0" ∧
    (ServiceCase.construct "T0" "T2" 2 "Max" "m@x.com" "TD-17" "SN2"
      "d2").created_at = "T0" ∧
    (ServiceCase.construct "T0" "T2" 2 "Max" "m@x.com" "TD-17" "SN2"
      "d2").updated_at = "T0" ∧
    ("T1" : String) ≠ "T2" :=
  ⟨rfl, rfl, rfl, rfl, by decide⟩

/-- Claim C3: `update_status` sets `status` to the new value, overwrites
`resolution_notes` exactly when notes are provided (default otherwise),
refreshes `updated_at` to the current time, and leaves `case_id`,
`customer_name`, `contact_email`, `product_model`, `serial_number`,
`issue_description` and `created_at` unchanged. -/
theorem C3_update_status_fields (c : ServiceCase) (new_status : String)
    (notes : Option String) (now : String) :
    (c.update_status new_status notes now).status = new_status ∧
    (c.update_status new_status notes now).resolution_notes
      = notes.getD c.resolution_notes ∧
    (c.update_status new_status notes now).updated_at = now ∧
    (c.update_status new_status notes now).case_id = c.case_id ∧
    (c.update_status new_status notes now).customer_name = c.customer_name ∧
    (c.update_status new_status notes now).contact_email = c.contact_email ∧
    (c.update_status new_status notes now).product_model = c.product_model ∧
    (c.update_status new_status notes now).serial_number = c.serial_number ∧
    (c.update_status new_status notes now).issue_description
      = c.issue_description ∧
    (c.update_status new_status notes now).created_at = c.created_at := by
  cases notes <;> simp [ServiceCase.update_status, Option.getD]

/-- Claim C4: saving a collection and loading it back returns the same
cases with all fields equal, in the same order. -/
theorem C4_save_then_load (X : List ServiceCase) :
    CaseRepository.load (some (CaseRepository.save X)) = X :=
  load_save_eq X

/-- Claim C5: loading a repository whose backing file does not exist
returns the empty collection (the function is total, so no error is
possible). -/
theorem C5_load_missing_file : CaseRepository.load none = [] := rfl

/-- Claim C6: updating a `case_id` absent from the stored collection leaves
the backing store unchanged (no save happens) and reports not-found; the
handler is total, so no exception escapes. -/
theorem C6_update_nonexistent (cid : Int) (s : String) (notes : Option String)
    (now : String) (fs : Store)
    (h : cid ∉ (CaseRepository.load fs).map ServiceCase.case_id) :
    handle_update cid s notes now fs
      = (fs, "Kein Fall mit der ID " ++ toString cid ++ " gefunden.") := by
  simp [handle_update, updateFirst_not_found cid s notes now _ h]

/-- Witness for C6: updating id 2 in a store holding only id 1 returns the
store untouched with the not-found message. -/
theorem C6_update_nonexistent_witness :
    handle_update 2 "closed" none "T9" (some (CaseRepository.save [demoCase 1]))
      = (some (CaseRepository.save [demoCase 1]),
         "Kein Fall mit der ID " ++ toString (2 : Int) ++ " gefunden.") :=
  C6_update_nonexistent 2 "closed" none "T9"
    (some (CaseRepository.save [demoCase 1])) (by decide)

/-- Claim C7: converting a case to its key-value mapping and back yields an
entity equal to the original in every field. -/
theorem C7_dict_roundtrip (c : ServiceCase) :
    ServiceCase.from_dict (asdict c) = c :=
  from_dict_asdict_eq c

/-- Claim C8: collections reachable from an empty store by the program's
own operations have pairwise-distinct ids; every freshly assigned id
strictly exceeds every existing id; a successful update never changes the
id sequence. -/
theorem C8_unique_case_ids :
    (∀ fs : Store, ReachableStore fs →
      ((CaseRepository.load fs).map ServiceCase.case_id).Pairwise
        (fun a b => a ≠ b)) ∧
    (∀ (cases : List ServiceCase) (c : ServiceCase), c ∈ cases →
      c.case_id < _create_case_id cases) ∧
    (∀ (cid : Int) (s : String) (notes : Option String) (now : String)
        (cs : List ServiceCase) (out : List ServiceCase × ServiceCase),
      updateFirst cid s notes now cs = some out →
      out.1.map ServiceCase.case_id = cs.map ServiceCase.case_id) := by
  refine ⟨?_, ?_, ?_⟩
  · intro fs h
    exact (reachable_pairwise_lt fs h).imp (fun hlt => ne_of_lt hlt)
  · intro cases c h
    exact case_id_lt_create h
  · intro cid s notes now cs out h
    exact updateFirst_map_case_id cid s notes now cs out h

/-- Witness for C8: a store reached by init, two adds and one update has
pairwise-distinct ids; the next id for a two-case collection exceeds the
id of a concrete member; a concrete successful update preserves the id
sequence. -/
theorem C8_unique_case_ids_witness :
    ((CaseRepository.load ((handle_update 1 "closed" (some "fixed") "T9"
        ((handle_add "T0" "T2" demoArgs
          ((handle_add "T0" "T1" demoArgs
            ((handle_init "sav_cases.json" none).1)).1)).1)).1)).map
      ServiceCase.case_id).Pairwise (fun a b => a ≠ b) ∧
    (demoCase 3).case_id < _create_case_id [demoCase 3, demoCase 1] ∧
    ((demoCase 1).update_status "x" none "T5" :: []).map ServiceCase.case_id
      = [demoCase 1].map ServiceCase.case_id :=
  ⟨C8_unique_case_ids.1 _
    (ReachableStore.update 1 "closed" (some "fixed") "T9" _
      (ReachableStore.add "T0" "T2" demoArgs _
        (ReachableStore.add "T0" "T1" demoArgs _
          (ReachableStore.init "sav_cases.json" none ReachableStore.empty)))),
   C8_unique_case_ids.2.1 [demoCase 3, demoCase 1] (demoCase 3)
     (List.mem_cons_self _ _),
   C8_unique_case_ids.2.2 1 "x" none "T5" [demoCase 1]
     ((demoCase 1).update_status "x" none "T5" :: [],
      (demoCase 1).update_status "x" none "T5") (by decide)⟩

/-- Claim C9: `init` on a missing backing file creates an empty store at
the configured path and completes; on an existing file it is a no-op with
a notice and never overwrites the stored data. -/
theorem C9_init_behaviour (path : String) (d : List CaseDict) :
    handle_init path none
      = (some (CaseRepository.save []),
         "Neue SAV-Datenbank erstellt: " ++ path) ∧
    CaseRepository.load (handle_init path none).1 = [] ∧
    handle_init path (some d)
      = (some d, "Datenbestand existiert bereits unter " ++ path ++ ".") :=
  ⟨rfl, rfl, rfl⟩

/-- Claim C10: when the stored collection contains several cases with the
requested id, `handle_update` updates only the first match in sequence
order, leaves every later case (including later duplicates) unchanged, and
the resulting store is a single save of that collection. -/
theorem C10_update_first_match (cid : Int) (s : String) (notes : Option String)
    (now : String) (pre : List ServiceCase) (c : ServiceCase)
    (post : List ServiceCase) (hpre : ∀ p ∈ pre, p.case_id ≠ cid)
    (hc : c.case_id = cid) :
    handle_update cid s notes now
        (some (CaseRepository.save (pre ++ c :: post)))
      = (some (CaseRepository.save
            (pre ++ c.update_status s notes now :: post)),
         "Fall #" ++ toString c.case_id ++ " aktualisiert (Status: "
           ++ s ++ ").") := by
  simp only [handle_update, load_save_eq,
    updateFirst_split cid s notes now pre c post hpre hc]
  rfl

/-- Witness for C10: ids `[1, 2, 2]`; updating id 2 changes only the first
case with id 2 and leaves the later duplicate `demoDup` untouched. -/
theorem C10_update_first_match_witness :
    handle_update 2 "closed" (some "fixed") "T9"
        (some (CaseRepository.save [demoCase 1, demoCase 2, demoDup]))
      = (some (CaseRepository.save
            [demoCase 1, (demoCase 2).update_status "closed" (some "fixed") "T9",
             demoDup]),
         "Fall #" ++ toString (demoCase 2).case_id ++ " aktualisiert (Status: "
           ++ "closed" ++ ").") :=
  C10_update_first_match 2 "closed" (some "fixed") "T9" [demoCase 1]
    (demoCase 2) [demoDup] (by decide) (by decide)
